import Mathlib

/-!
Verification of the signature-placement core of the Automated E-signature
System (`src/signer_utils.py`, with its caller `src/app.py`).

The Python source is shallowly embedded: numbers (Python floats used for
page/pixel coordinates and scores) are modelled as rationals, Python lists as
`List`, Python dict records as structures, and fallible calls as `Except`.
External capabilities (pdfplumber, pdf2image, PyPDF2 page data, pytesseract,
OpenCV) are modelled as input data supplied to the embedded functions, exactly
as the source consumes them.
-/

namespace SignerUtils

/-- A signature-placement candidate, the dict
`{"page": ..., "x": ..., "y": ..., "width": ..., "height": ..., "score": ..., "reason": ...}`
built by `find_signature_candidates_by_ocr` and consumed by
`remove_duplicate_candidates` and `overlay_signature_on_pdf_at_candidates`. -/
structure Candidate where
  page : Nat
  x : ℚ
  y : ℚ
  width : ℚ
  height : ℚ
  score : ℚ
  reason : String
deriving DecidableEq, Repr

/-- The function `convert_ocr_to_pdf_coords` (signer_utils.py lines 65-74): converts OCR
pixel coordinates (top-left origin) to PDF points (bottom-left origin).
`if img_w == 0 or img_h == 0: return 0, 0, ocr_w, ocr_h`; otherwise
`scale_x = pdf_w / img_w`, `scale_y = pdf_h / img_h`,
`pdf_x = ocr_x * scale_x`, `pdf_y = pdf_h - ((ocr_y + ocr_h) * scale_y)`,
`pdf_w_res = ocr_w * scale_x`, `pdf_h_res = ocr_h * scale_y`. -/
def convert_ocr_to_pdf_coords (ocr_x ocr_y ocr_w ocr_h img_w img_h pdf_w pdf_h : ℚ) :
    ℚ × ℚ × ℚ × ℚ :=
  if img_w = 0 ∨ img_h = 0 then (0, 0, ocr_w, ocr_h)
  else
    let scale_x := pdf_w / img_w
    let scale_y := pdf_h / img_h
    (ocr_x * scale_x, pdf_h - (ocr_y + ocr_h) * scale_y, ocr_w * scale_x, ocr_h * scale_y)

/-- The comparison used by `sorted(candidates, key=lambda x: -float(x.get("score", 0)))`
and by `sorted(unique_candidates, key=lambda c: c.get("score", 0), reverse=True)`:
candidate `a` may precede candidate `b` when `b.score ≤ a.score`. Every
candidate dict built in the source carries a `"score"` key, so the `.get`
defaults never fire. -/
def scoreGE (a b : Candidate) : Prop := b.score ≤ a.score

instance : DecidableRel scoreGE := fun a b => inferInstanceAs (Decidable (b.score ≤ a.score))

instance : IsTotal Candidate scoreGE := ⟨fun a b => le_total b.score a.score⟩

instance : IsTrans Candidate scoreGE := ⟨fun _ _ _ h1 h2 => le_trans h2 h1⟩

/-- Python's `sorted` with a descending score key: a stable descending sort.
A stable sort is uniquely determined by the comparison and the input, so
CPython's Timsort is modelled by insertion sort with the same stable
comparison. -/
def pySortedByScoreDesc (l : List Candidate) : List Candidate :=
  List.insertionSort scoreGE l

/-- The duplicate test of `remove_duplicate_candidates` (line 94):
`abs(c["x"] - u["x"]) < threshold_px and abs(c["y"] - u["y"]) < threshold_px`.
Note the source compares only `x` and `y`; the page of the two candidates is
never consulted. -/
def closeTo (t : ℚ) (c u : Candidate) : Prop :=
  |c.x - u.x| < t ∧ |c.y - u.y| < t

instance (t : ℚ) (c u : Candidate) : Decidable (closeTo t c u) :=
  inferInstanceAs (Decidable (_ ∧ _))

/-- The `for c in sorted(...)` loop of `remove_duplicate_candidates`
(lines 91-98): greedily accept `c` into `out` unless some already-accepted
`u` is within `threshold_px` on both axes. -/
def dedupLoop (t : ℚ) (out : List Candidate) : List Candidate → List Candidate
  | [] => out
  | c :: rest =>
    if out.any (fun u => decide (closeTo t c u)) then dedupLoop t out rest
    else dedupLoop t (out ++ [c]) rest

/-- The function `remove_duplicate_candidates` (signer_utils.py lines 88-99) with its
default `threshold_px = 30.0` passed explicitly. -/
def remove_duplicate_candidates (candidates : List Candidate) (threshold_px : ℚ) :
    List Candidate :=
  dedupLoop threshold_px [] (pySortedByScoreDesc candidates)

/-- The keyword list `KEYWORDS` (signer_utils.py lines 25-29). -/
def KEYWORDS : List String :=
  ["signature", "sign here", "sign:", "sig.", "authorised signatory",
   "signed by", "please sign", "customer signature", "employee signature",
   "signatur", "signat", "siganture", "signature:"]

/-- Python's substring containment `needle in hay` on the underlying
character lists: some tail of `hay` starts with `needle`. -/
def listHasSub (needle : List Char) : List Char → Bool
  | [] => needle.isEmpty
  | c :: t => needle.isPrefixOf (c :: t) || listHasSub needle t

/-- Python's `needle in hay` for strings. -/
def strHasSub (hay needle : String) : Bool :=
  listHasSub needle.toList hay.toList

/-- Python's `text.lower()` on the ASCII texts considered here, applied
character-wise. -/
def pyLower (s : String) : String := String.mk (s.toList.map Char.toLower)

/-- The function `fuzzy_match` (signer_utils.py lines 41-49). `difflib.SequenceMatcher(None, t, kw).ratio()`
is an external standard-library capability; it is supplied as the parameter
`sim` (a symmetric length-normalised similarity in `[0,1]`; no claim verified
here depends on its value). The default arguments `keywords=KEYWORDS` and
`cutoff=0.70` are passed explicitly. -/
def fuzzy_match (sim : String → String → ℚ) (text : String)
    (keywords : List String) (cutoff : ℚ) : Bool :=
  if text = "" then false
  else
    let t := pyLower text
    keywords.any (fun kw => strHasSub t kw || decide (cutoff ≤ sim t kw))

/-- Python exceptions that the embedded code can raise. -/
inductive PyErr where
  /-- `AttributeError`: an attribute lookup on a module failed. -/
  | attributeError
  /-- `UnboundLocalError`: a local variable was referenced before assignment. -/
  | unboundLocalError
deriving DecidableEq, Repr

/-- One recognised word of `pytesseract.image_to_data(..., output_type=Output.DICT)`.
The source reads the parallel arrays `text`, `conf`, `left`, `top`, `width`,
`height` at a common index; they are modelled as one record per index. `conf`
holds the numeric value of the confidence entry; the entry that pytesseract
reports as the string `'-1'` is modelled by the value `-1` (downstream the
confidence is only compared with `30`, and divided by `100` after that
comparison succeeds, so the two representations are observationally equal). -/
structure OcrEntry where
  text : String
  left : ℚ
  top : ℚ
  width : ℚ
  height : ℚ
  conf : ℚ
deriving DecidableEq, Repr

/-- A line segment as returned by OpenCV's probabilistic Hough transform. -/
structure Seg where
  x1 : ℚ
  y1 : ℚ
  x2 : ℚ
  y2 : ℚ
deriving DecidableEq, Repr

/-- The external per-page data `find_signature_candidates_by_ocr` consumes:
the page's point dimensions (`page.mediabox`), the rasterised image's pixel
dimensions (`img_cv.shape`), the outcome of running pytesseract on the
preprocessed page image (`.error ()` when the recognition engine throws), and
the segments `cv2.HoughLinesP(edges, 1, np.pi/180, 100, minLineLength=100,
maxLineGap=10)` would return on the page's Canny edge map.
`preprocess_image_for_ocr_cv` (lines 76-85) catches its own failures and
falls back to plain grayscale, so preprocessing is modelled as total; the
`ocr` field is the recognition outcome on whichever image it produced. -/
structure PageData where
  pdf_w : ℚ
  pdf_h : ℚ
  img_w : ℚ
  img_h : ℚ
  ocr : Except Unit (List OcrEntry)
  hough : List Seg

/-- The function `safe_ocr_image` (signer_utils.py lines 51-62). On success the body
builds `keys` and returns `{k: data.get(k, []) for k in keys}`, the identity
on the record model. On failure the handler runs
`return {k: [] for k in keys}` — but `keys` is a local assigned inside the
`try`, *after* the `pytesseract` call that threw, so the handler itself
raises `UnboundLocalError` instead of returning the empty dictionary. -/
def safe_ocr_image (result : Except Unit (List OcrEntry)) : Except PyErr (List OcrEntry) :=
  match result with
  | .ok data => .ok data
  | .error _ => .error .unboundLocalError

/-- Python's `int(...)` on a float value: truncation toward zero. -/
def pyInt (q : ℚ) : Int := if 0 ≤ q then ⌊q⌋ else ⌈q⌉

/-- The assignment `conf = int(float(ocr_data["conf"][i])) if ... and ocr_data["conf"][i] != '-1' else 0`
(line 197). -/
def entryConf (e : OcrEntry) : Int :=
  if e.conf = -1 then 0 else pyInt e.conf

/-- The candidate dict built for a recognised keyword word
(signer_utils.py lines 199-218): map the word's pixel box to PDF points,
then use the fixed practical size `signature_box_width = 120`,
`signature_box_height = 45`, vertically centred on the detected text
(`new_box_y = pdf_y + (pdf_h_box / 2) - (signature_box_height / 2)`), with
`score = max(0.5, conf / 100.0)` and `reason = f"ocr: {text[:20]}"`. -/
def ocrEntryCandidate (page_index : Nat) (p : PageData) (e : OcrEntry) : Candidate :=
  let r := convert_ocr_to_pdf_coords e.left e.top e.width e.height
    p.img_w p.img_h p.pdf_w p.pdf_h
  { page := page_index
    x := r.1
    y := r.2.1 + r.2.2.2 / 2 - 45 / 2
    width := 120
    height := 45
    score := max (1/2) ((entryConf e : ℚ) / 100)
    reason := "ocr: " ++ e.text.take 20 }

/-- The OCR pass of the per-page loop (lines 196-219): for each entry with
`conf > 30 and fuzzy_match(text)`, append `ocrEntryCandidate`. -/
def ocrPassCandidates (sim : String → String → ℚ) (page_index : Nat) (p : PageData)
    (entries : List OcrEntry) : List Candidate :=
  (entries.filter
      (fun e => decide (30 < entryConf e) && fuzzy_match sim e.text KEYWORDS (7/10))).map
    (ocrEntryCandidate page_index p)

/-- The call `cv2.H_HoughLinesP` (line 224): the OpenCV module has no attribute of
this name — the detector is spelled `cv2.HoughLinesP` — so the attribute
lookup raises `AttributeError` on every execution, before any segment is
consumed. -/
def cv2_H_HoughLinesP (_hough : List Seg) : Except PyErr (List Seg) :=
  .error .attributeError

/-- The candidate dict built for a near-horizontal segment
(signer_utils.py lines 229-233). -/
def lineCandidate (page_index : Nat) (p : PageData) (ln : Seg) : Candidate :=
  let r := convert_ocr_to_pdf_coords (min ln.x1 ln.x2) (min ln.y1 ln.y2)
    |ln.x2 - ln.x1| 20 p.img_w p.img_h p.pdf_w p.pdf_h
  { page := page_index
    x := r.1
    y := r.2.1
    width := r.2.2.1
    height := 40
    score := 9/20
    reason := "line_detect" }

/-- The body of the `try` block of the visual-heuristic pass
(lines 222-233): Canny edge detection (total on a valid image), then the
`cv2.H_HoughLinesP` lookup — which raises `AttributeError` — then, had a
segment list been obtained, one candidate per segment with
`abs(y2 - y1) < 10`. -/
def lineDetectTry (page_index : Nat) (p : PageData) : Except PyErr (List Candidate) := do
  let lines ← cv2_H_HoughLinesP p.hough
  .ok ((lines.filter (fun ln => decide (|ln.y2 - ln.y1| < 10))).map (lineCandidate page_index p))

/-- The visual-heuristic pass with its `except` handler (lines 234-235):
a failure is logged and the page contributes no line candidates. -/
def linePassCandidates (page_index : Nat) (p : PageData) : List Candidate :=
  match lineDetectTry page_index p with
  | .ok cs => cs
  | .error _ => []

/-- One iteration of `for page_index, pil_img in enumerate(pil_pages)`
(lines 187-235): the OCR pass runs first — `safe_ocr_image`'s
`UnboundLocalError` propagates, since the page loop has no handler around the
OCR pass — then the line pass with its own contained handler. -/
def pageCandidates (sim : String → String → ℚ) (page_index : Nat) (p : PageData) :
    Except PyErr (List Candidate) := do
  let entries ← safe_ocr_image p.ocr
  .ok (ocrPassCandidates sim page_index p entries ++ linePassCandidates page_index p)

/-- The page loop, accumulating `candidates` across pages in order. -/
def pagesLoop (sim : String → String → ℚ) : Nat → List PageData → Except PyErr (List Candidate)
  | _, [] => .ok []
  | page_index, p :: rest => do
    let cs ← pageCandidates sim page_index p
    let more ← pagesLoop sim (page_index + 1) rest
    .ok (cs ++ more)

/-- The function `find_signature_candidates_by_ocr` (signer_utils.py lines 175-239).
`doc = none` models `convert_from_path` / `PdfReader` failing to open the
document (lines 180-185): logged, return `[]`. `convert_from_path` and
`PdfReader` read the same file, so one list of per-page records models both
`pil_pages` and `reader.pages`. On success: the page loop, then
`remove_duplicate_candidates`, then
`sorted(unique_candidates, key=lambda c: c.get("score", 0), reverse=True)`. -/
def find_signature_candidates_by_ocr (sim : String → String → ℚ)
    (doc : Option (List PageData)) : Except PyErr (List Candidate) :=
  match doc with
  | none => .ok []
  | some pages => do
    let candidates ← pagesLoop sim 0 pages
    .ok (pySortedByScoreDesc (remove_duplicate_candidates candidates 30))

/-- One operation of a PDF page's content stream, at the granularity the
overlay code manipulates: the page's original content (abstract, tagged), and
`canvas.drawImage(signature_img_path, x, y, width=sig_w, height=sig_h,
mask='auto')` calls merged on top. -/
inductive ContentOp where
  | base (tag : Nat)
  | image (path : String) (x y w h : ℚ)
deriving DecidableEq, Repr

/-- A PDF page as `PyPDF2` exposes it to the overlay code: mediabox
dimensions and content. `page.merge_page(overlay)` appends the overlay's
operations after the original content (overlay drawn on top). -/
structure Page where
  width : ℚ
  height : ℚ
  content : List ContentOp
deriving DecidableEq, Repr

/-- Failures of `overlay_signature_on_pdf_at_candidates`, which has no
handler of its own: they propagate to the caller
(`app.sign_document` catches them and answers HTTP 500). -/
inductive OverlayErr where
  /-- `PdfReader(pdf_path)` raised: the document cannot be opened or decoded. -/
  | pdfReadError
  /-- `canvas.drawImage(signature_img_path, ...)` raised: the signature
  image cannot be read. -/
  | imageReadError
deriving DecidableEq, Repr

/-- The file system as the overlay code sees it: which documents open, and
whether an image path is readable by reportlab's `drawImage`. -/
structure World where
  readPdf : String → Option (List Page)
  imageReadable : String → Bool

/-- The selection `to_draw = [cands_by_page[p_index][0]] if pick_first else cands_by_page[p_index]`
(line 256), with `[]` when the page has no candidates (no draw happens). -/
def toDraw (cs : List Candidate) (pick_first : Bool) : List Candidate :=
  match cs, pick_first with
  | [], _ => []
  | c :: _, true => [c]
  | l, false => l

/-- The drawImage calls issued for the selected candidates (lines 257-267):
the exact position and dimensions of each candidate box. -/
def drawOps (sig : String) (cs : List Candidate) : List ContentOp :=
  cs.map (fun c => ContentOp.image sig c.x c.y c.width c.height)

/-- One iteration of the page loop (lines 250-274): build the overlay canvas
for this page — `cands_by_page` groups candidates by `"page"` preserving
input order, modelled by `List.filter` — and merge it onto the original page.
A page with no candidates is merged with the empty canvas, leaving its
content unchanged. -/
def stampPage (sig : String) (candidates : List Candidate) (pick_first : Bool)
    (p_index : Nat) (page : Page) : Page :=
  { page with
    content := page.content ++
      drawOps sig (toDraw (candidates.filter (fun c => c.page == p_index)) pick_first) }

/-- The loop `for p_index, page in enumerate(reader.pages)` with `writer.add_page(page)`:
every source page, in order, stamped with its own overlay. -/
def stampPages (sig : String) (candidates : List Candidate) (pick_first : Bool) :
    Nat → List Page → List Page
  | _, [] => []
  | i, page :: rest =>
    stampPage sig candidates pick_first i page ::
      stampPages sig candidates pick_first (i + 1) rest

/-- The function `overlay_signature_on_pdf_at_candidates` (signer_utils.py lines 240-278).
The function body has no `try`/`except`: `PdfReader(pdf_path)` raising
propagates, and so does `canvas.drawImage` when the signature image is
unreadable — which happens exactly when some candidate targets an existing
page (only then is a draw attempted). Otherwise the stamped pages are
written out in order. -/
def overlay_signature_on_pdf_at_candidates (w : World) (pdf_path signature_img_path : String)
    (candidates : List Candidate) (pick_first : Bool) : Except OverlayErr (List Page) :=
  match w.readPdf pdf_path with
  | none => .error .pdfReadError
  | some pages =>
    if !w.imageReadable signature_img_path
        && candidates.any (fun c => decide (c.page < pages.length)) then
      .error .imageReadError
    else
      .ok (stampPages signature_img_path candidates pick_first 0 pages)

/-- The class `\w` of `EMAIL_RE = re.compile(r'[\w\.-]+@[\w\.-]+\.\w+')`, on the ASCII
texts considered here: a letter, a digit, or an underscore. -/
def isWordChar (c : Char) : Bool := c.isAlphanum || c == '_'

/-- The character class `[\w\.-]` of `EMAIL_RE`. -/
def isEmailChar (c : Char) : Bool := isWordChar c || c == '.' || c == '-'

/-- The backtracking of `[\w\.-]+\.\w+` over a run of `[\w\.-]` characters:
the greedy engine settles on the *rightmost* position `k` with a literal
`'.'` at `k` and a `\w` character right after, splitting the run into the
part before that dot and the maximal `\w+` run after it. -/
def lastDotSplit : List Char → Option (List Char × List Char)
  | [] => none
  | c :: t =>
    match lastDotSplit t with
    | some (pre, w) => some (c :: pre, w)
    | none =>
      if c == '.' then
        match t with
        | d :: _ => if isWordChar d then some ([], t.takeWhile isWordChar) else none
        | [] => none
      else none

/-- The pattern `EMAIL_RE` matched at the start of `s`: `[\w\.-]+` is a maximal nonempty
run (backtracking cannot help, `@` is outside the class), then `@`, then the
backtracked decomposition of the following run into `[\w\.-]+ \. \w+`.
Returns the matched characters and the remainder of the text. -/
def matchEmailAt (s : List Char) : Option (List Char × List Char) :=
  let p1 := s.takeWhile isEmailChar
  let r1 := s.dropWhile isEmailChar
  if p1.isEmpty then none
  else
    match r1 with
    | '@' :: r2 =>
      let run := r2.takeWhile isEmailChar
      let rest := r2.dropWhile isEmailChar
      match lastDotSplit run with
      | some (pre, wrun) =>
        if pre.isEmpty then none
        else
          some (p1 ++ '@' :: (pre ++ '.' :: wrun),
            run.drop (pre.length + 1 + wrun.length) ++ rest)
      | none => none
    | _ => none

/-- The scan of `re.findall`: try a match at each position left to right;
on success emit it and continue after it (matches do not overlap), else
advance one character. Each match consumes at least one character, so the
text's length bounds the number of steps. -/
def findallAux : Nat → List Char → List String
  | 0, _ => []
  | _, [] => []
  | fuel + 1, c :: t =>
    match matchEmailAt (c :: t) with
    | some (m, rest) => String.mk m :: findallAux fuel rest
    | none => findallAux fuel t

/-- The scan `EMAIL_RE.findall(s)` (signer_utils.py line 24). -/
def EMAIL_RE_findall (s : String) : List String :=
  findallAux s.length s.toList

/-- A word token of `page.extract_words()` as the source reads it
(`w.get("text", "")`, `w.get("x0", 0)`, `w.get("x1", page.width)`,
`w.get("top", 0)`, `w.get("bottom", 0)`); pdfplumber always populates these
keys, so they are modelled as record fields. -/
structure PdfWord where
  text : String
  x0 : ℚ
  x1 : ℚ
  top : ℚ
  bottom : ℚ

/-- A page of `pdfplumber.open(pdf_path).pages`: its dimensions, its full
extracted text (`page.extract_text() or ""`) and its word tokens. -/
structure PdfPage where
  width : ℚ
  height : ℚ
  fullText : String
  words : List PdfWord

/-- The signature-box dict built at signer_utils.py lines 137-143. -/
structure SigBox where
  page : Nat
  x0 : ℚ
  x1 : ℚ
  y0_top : ℚ
  y1_bottom : ℚ
deriving DecidableEq, Repr

/-- The word loop of a page (lines 135-143): each word passing `fuzzy_match`
contributes a box with the source's padding constants. -/
def pageSigBoxes (sim : String → String → ℚ) (pageno : Nat) (page : PdfPage) : List SigBox :=
  (page.words.filter (fun w => fuzzy_match sim w.text KEYWORDS (7/10))).map
    (fun w =>
      { page := pageno, x0 := w.x0 - 5, x1 := w.x1,
        y0_top := w.top - 4, y1_bottom := w.bottom + 45 })

/-- The email loop of a page (lines 131-133): append each found email that
is not already collected, preserving first-seen order across pages. -/
def appendNewEmails (acc : List String) (found : List String) : List String :=
  found.foldl (fun acc e => if e ∈ acc then acc else acc ++ [e]) acc

/-- The loop `for pageno, page in enumerate(pdf.pages)` (lines 129-143), threading
the email and box accumulators. -/
def extractLoop (sim : String → String → ℚ) :
    Nat → List String → List SigBox → List PdfPage → List String × List SigBox
  | _, emails, boxes, [] => (emails, boxes)
  | pageno, emails, boxes, page :: rest =>
    extractLoop sim (pageno + 1)
      (appendNewEmails emails (EMAIL_RE_findall page.fullText))
      (boxes ++ pageSigBoxes sim pageno page) rest

/-- The function `extract_emails_and_sigboxes_from_pdf` (signer_utils.py lines 124-146).
`doc = none` models `pdfplumber.open` failing: the handler logs and the
accumulators stay empty. The return statement is
`return list(set(emails)), sig_boxes`: the iteration order of a CPython
`set` of strings is unspecified (string hashing is randomised per process),
so `list(set(...))` is modelled by an order oracle `setOrder`; a faithful
oracle returns some permutation of the distinct elements of its input. -/
def extract_emails_and_sigboxes_from_pdf (sim : String → String → ℚ)
    (setOrder : List String → List String) (doc : Option (List PdfPage)) :
    List String × List SigBox :=
  match doc with
  | none => (setOrder [], [])
  | some pages =>
    let r := extractLoop sim 0 [] [] pages
    (setOrder r.1, r.2)

/-! ## Properties of the Coordinate Mapper -/

/-- C6: `convert_ocr_to_pdf_coords` is a pure total function: with nonzero
image dimensions it returns exactly
`(pixelX * scaleX, pageHeightPt - (pixelY + pixelH) * scaleY, pixelW * scaleX, pixelH * scaleY)`
for `scaleX = pageWidthPt / imageWidthPx` and
`scaleY = pageHeightPt / imageHeightPx`; with a zero image dimension it
divides by nothing and returns the zero-origin rectangle
`(0, 0, pixelW, pixelH)`. -/
theorem convert_ocr_to_pdf_coords_spec (ocr_x ocr_y ocr_w ocr_h img_w img_h pdf_w pdf_h : ℚ) :
    (img_w ≠ 0 → img_h ≠ 0 →
      convert_ocr_to_pdf_coords ocr_x ocr_y ocr_w ocr_h img_w img_h pdf_w pdf_h =
        (ocr_x * (pdf_w / img_w), pdf_h - (ocr_y + ocr_h) * (pdf_h / img_h),
          ocr_w * (pdf_w / img_w), ocr_h * (pdf_h / img_h))) ∧
    (img_w = 0 ∨ img_h = 0 →
      convert_ocr_to_pdf_coords ocr_x ocr_y ocr_w ocr_h img_w img_h pdf_w pdf_h =
        (0, 0, ocr_w, ocr_h)) := by
  constructor
  · intro hw hh
    simp [convert_ocr_to_pdf_coords, hw, hh]
  · intro h
    simp [convert_ocr_to_pdf_coords, h]

/-! ## Properties of the Deduplicator -/

lemma closeTo_symm {t : ℚ} {a b : Candidate} (h : closeTo t a b) : closeTo t b a :=
  ⟨by rw [abs_sub_comm]; exact h.1, by rw [abs_sub_comm]; exact h.2⟩

lemma mem_dedupLoop_of_mem (t : ℚ) (l : List Candidate) :
    ∀ out u, u ∈ out → u ∈ dedupLoop t out l := by
  induction l with
  | nil => intro out u h; simpa [dedupLoop] using h
  | cons c rest ih =>
    intro out u h
    by_cases hc : (out.any fun v => decide (closeTo t c v)) = true
    · simpa [dedupLoop, hc] using ih out u h
    · simpa [dedupLoop, hc] using ih (out ++ [c]) u (List.mem_append_left _ h)

lemma dedupLoop_sublist (t : ℚ) (l : List Candidate) :
    ∀ out, List.Sublist (dedupLoop t out l) (out ++ l) := by
  induction l with
  | nil => intro out; simp [dedupLoop]
  | cons c rest ih =>
    intro out
    by_cases hc : (out.any fun v => decide (closeTo t c v)) = true
    · simp only [dedupLoop, hc, if_true]
      exact (ih out).trans
        (List.append_sublist_append_left out |>.mpr (List.sublist_cons_self c rest))
    · simp only [dedupLoop, hc, if_false]
      simpa [List.append_assoc] using ih (out ++ [c])

lemma dedupLoop_pairwise (t : ℚ) (l : List Candidate) :
    ∀ out, out.Pairwise (fun a b => ¬ closeTo t a b) →
      (dedupLoop t out l).Pairwise (fun a b => ¬ closeTo t a b) := by
  induction l with
  | nil => intro out h; simpa [dedupLoop] using h
  | cons c rest ih =>
    intro out h
    by_cases hc : (out.any fun v => decide (closeTo t c v)) = true
    · simpa [dedupLoop, hc] using ih out h
    · simp only [dedupLoop, hc, if_false]
      apply ih
      rw [List.pairwise_append]
      refine ⟨h, List.pairwise_singleton _ _, ?_⟩
      intro a ha b hb
      rw [List.mem_singleton] at hb
      have hc2 : ∀ v ∈ out, ¬ closeTo t c v := by
        simpa [List.any_eq_true] using hc
      subst hb
      exact fun hcl => hc2 a ha (closeTo_symm hcl)

lemma dedupLoop_discarded (t : ℚ) (l : List Candidate) :
    ∀ out c, c ∈ l → c ∉ dedupLoop t out l →
      ∃ u ∈ dedupLoop t out l, closeTo t c u := by
  induction l with
  | nil => intro out c h; exact absurd h (List.not_mem_nil c)
  | cons d rest ih =>
    intro out c hmem hnot
    rw [List.mem_cons] at hmem
    by_cases hd : (out.any fun v => decide (closeTo t d v)) = true
    · simp only [dedupLoop, hd, if_true] at hnot ⊢
      rcases hmem with rfl | hmem
      · obtain ⟨u, hu, hcu⟩ : ∃ u ∈ out, closeTo t c u := by
          simpa [List.any_eq_true] using hd
        exact ⟨u, mem_dedupLoop_of_mem t rest out u hu, hcu⟩
      · exact ih out c hmem hnot
    · simp only [dedupLoop, hd, if_false] at hnot ⊢
      rcases hmem with rfl | hmem
      · exact absurd (mem_dedupLoop_of_mem t rest (out ++ [c]) c (by simp)) hnot
      · exact ih (out ++ [d]) c hmem hnot

lemma dedupLoop_fix (t : ℚ) (l : List Candidate)
    (hp : l.Pairwise fun a b => ¬ closeTo t a b) :
    ∀ out, (∀ u ∈ out, ∀ c ∈ l, ¬ closeTo t c u) → dedupLoop t out l = out ++ l := by
  induction l with
  | nil => intro out _; simp [dedupLoop]
  | cons c rest ih =>
    rw [List.pairwise_cons] at hp
    intro out hout
    have hc : (out.any fun v => decide (closeTo t c v)) = false := by
      simp only [List.any_eq_false, decide_eq_true_eq]
      exact fun v hv => hout v hv c (List.mem_cons_self c rest)
    simp only [dedupLoop, hc, Bool.false_eq_true, if_false]
    rw [ih hp.2 (out ++ [c]) ?_]
    · simp
    · intro u hu d hd
      rcases List.mem_append.mp hu with hu | hu
      · exact hout u hu d (List.mem_cons_of_mem c hd)
      · rw [List.mem_singleton] at hu
        subst hu
        exact fun hcl => hp.1 d hd (closeTo_symm hcl)

/-- The concrete pair refuting C2 as stated: two candidates at the same
coordinates but on different pages, the second with the lower score. -/
def cexSamePos0 : Candidate :=
  { page := 0, x := 0, y := 0, width := 10, height := 10, score := 1, reason := "a" }

/-- See `cexSamePos0`: same position, page 1, score one half. -/
def cexSamePos1 : Candidate :=
  { page := 1, x := 0, y := 0, width := 10, height := 10, score := 1/2, reason := "b" }

/-- C2 counterexample: `remove_duplicate_candidates` merges the two
candidates of `cexSamePos0`/`cexSamePos1` although they lie on different
pages — the source's duplicate test compares only `x` and `y` and never the
page — refuting the claim that candidates on different pages are never
merged. -/
theorem dedup_merges_across_pages_cex :
    remove_duplicate_candidates [cexSamePos0, cexSamePos1] 30 = [cexSamePos0] ∧
    cexSamePos0.page ≠ cexSamePos1.page := by
  constructor
  · norm_num [remove_duplicate_candidates, pySortedByScoreDesc, dedupLoop, scoreGE,
      closeTo, cexSamePos0, cexSamePos1]
  · decide

/-- C2 (amended): the Deduplicator discards a candidate exactly when some
already-accepted candidate — on *any* page, the page is never consulted —
lies within the threshold 30.0 in both X and Y independently: every output
candidate comes from the input, no two output candidates are within the
threshold on both axes, and every discarded input candidate is within the
threshold of some output candidate. -/
theorem dedup_proximity_ignoring_page (l : List Candidate) :
    (∀ c ∈ remove_duplicate_candidates l 30, c ∈ l) ∧
    ((remove_duplicate_candidates l 30).Pairwise fun a b => ¬ closeTo 30 a b) ∧
    (∀ c ∈ l, c ∉ remove_duplicate_candidates l 30 →
      ∃ u ∈ remove_duplicate_candidates l 30, closeTo 30 c u) := by
  refine ⟨?_, ?_, ?_⟩
  · intro c hc
    have h1 : c ∈ pySortedByScoreDesc l := by
      have hs := dedupLoop_sublist 30 (pySortedByScoreDesc l) []
      rw [List.nil_append] at hs
      exact hs.subset hc
    exact (List.perm_insertionSort scoreGE l).subset h1
  · exact dedupLoop_pairwise 30 _ [] List.Pairwise.nil
  · intro c hc hnot
    exact dedupLoop_discarded 30 (pySortedByScoreDesc l) [] c
      ((List.perm_insertionSort scoreGE l).symm.subset hc) hnot

/-- C9: the Deduplicator is idempotent — its output is sorted (descending
score) and pairwise separated, so a second run re-accepts every candidate in
the same order. -/
theorem dedup_idempotent (l : List Candidate) :
    remove_duplicate_candidates (remove_duplicate_candidates l 30) 30 =
      remove_duplicate_candidates l 30 := by
  set o := remove_duplicate_candidates l 30 with ho
  have hsub : List.Sublist o (pySortedByScoreDesc l) := by
    have hs := dedupLoop_sublist 30 (pySortedByScoreDesc l) []
    rwa [List.nil_append] at hs
  have hsorted : List.Sorted scoreGE o :=
    List.Pairwise.sublist hsub (List.sorted_insertionSort scoreGE l)
  have hpair : o.Pairwise fun a b => ¬ closeTo 30 a b :=
    dedupLoop_pairwise 30 _ [] List.Pairwise.nil
  have hsort2 : pySortedByScoreDesc o = o := hsorted.insertionSort_eq
  unfold remove_duplicate_candidates
  rw [hsort2, dedupLoop_fix 30 o hpair [] (fun u hu => absurd hu (List.not_mem_nil u)),
    List.nil_append]

/-! ## Properties of the Overlay Renderer -/

lemma stampPages_length (sig : String) (cands : List Candidate) (pf : Bool) :
    ∀ (n : Nat) (l : List Page), (stampPages sig cands pf n l).length = l.length := by
  intro n l
  induction l generalizing n with
  | nil => rfl
  | cons p rest ih => simp [stampPages, ih]

lemma stampPages_getElem (sig : String) (cands : List Candidate) (pf : Bool) :
    ∀ (n : Nat) (l : List Page) (i : Nat),
      (stampPages sig cands pf n l)[i]? = (l[i]?).map (stampPage sig cands pf (n + i)) := by
  intro n l
  induction l generalizing n with
  | nil => intro i; simp [stampPages]
  | cons p rest ih =>
    intro i
    cases i with
    | zero => simp [stampPages]
    | succ j =>
      have h1 : n + (j + 1) = (n + 1) + j := by omega
      simp [stampPages, ih (n + 1) j, h1]

lemma stampPage_of_no_candidates (sig : String) (cands : List Candidate) (pf : Bool)
    (i : Nat) (page : Page) (h : cands.filter (fun c => c.page == i) = []) :
    stampPage sig cands pf i page = page := by
  simp [stampPage, h, toDraw, drawOps]

lemma stampPage_pick_first (sig : String) (cands : List Candidate)
    (i : Nat) (page : Page) (c : Candidate) (rest : List Candidate)
    (h : cands.filter (fun x => x.page == i) = c :: rest) :
    stampPage sig cands true i page =
      { page with content := page.content ++
          [ContentOp.image sig c.x c.y c.width c.height] } := by
  simp [stampPage, h, toDraw, drawOps]

lemma filter_page_map_setScore (f : Candidate → ℚ) (i : Nat) (l : List Candidate) :
    (l.map fun c => { c with score := f c }).filter (fun c => c.page == i) =
      (l.filter fun c => c.page == i).map fun c => { c with score := f c } := by
  induction l with
  | nil => rfl
  | cons c rest ih =>
    simp only [List.map_cons, List.filter_cons]
    by_cases h : (c.page == i) = true
    · simp [h, ih]
    · simp [h, ih]

lemma drawOps_map_setScore (sig : String) (f : Candidate → ℚ) (l : List Candidate) :
    drawOps sig (l.map fun c => { c with score := f c }) = drawOps sig l := by
  simp only [drawOps, List.map_map]
  rfl

lemma stampPage_map_setScore (sig : String) (f : Candidate → ℚ) (cands : List Candidate)
    (pf : Bool) (i : Nat) (page : Page) :
    stampPage sig (cands.map fun c => { c with score := f c }) pf i page =
      stampPage sig cands pf i page := by
  rw [stampPage, stampPage, filter_page_map_setScore]
  cases h : cands.filter fun c => c.page == i with
  | nil => rfl
  | cons c rest =>
    cases pf with
    | true => rfl
    | false =>
      have hd := drawOps_map_setScore sig f (c :: rest)
      simp only [toDraw, List.map_cons] at hd ⊢
      rw [hd]

lemma stampPages_map_setScore (sig : String) (f : Candidate → ℚ) (cands : List Candidate)
    (pf : Bool) : ∀ (n : Nat) (l : List Page),
    stampPages sig (cands.map fun c => { c with score := f c }) pf n l =
      stampPages sig cands pf n l := by
  intro n l
  induction l generalizing n with
  | nil => rfl
  | cons p rest ih => simp [stampPages, ih, stampPage_map_setScore]

lemma any_page_map_setScore (f : Candidate → ℚ) (n : Nat) (cands : List Candidate) :
    (cands.map fun c => { c with score := f c }).any (fun c => decide (c.page < n)) =
      cands.any (fun c => decide (c.page < n)) := by
  rw [List.any_map]
  rfl

/-- C1 (amended): when the document path cannot be opened or decoded,
`overlay_signature_on_pdf_at_candidates` propagates the `PdfReader` error to
its caller — its body has no handler — rather than returning the original
bytes or an empty stream (the caller `app.sign_document` catches the
exception and answers HTTP 500). -/
theorem overlay_unreadable_pdf_raises (w : World) (pdf_path sig : String)
    (cands : List Candidate) (pf : Bool) (h : w.readPdf pdf_path = none) :
    overlay_signature_on_pdf_at_candidates w pdf_path sig cands pf =
      Except.error OverlayErr.pdfReadError := by
  simp [overlay_signature_on_pdf_at_candidates, h]

/-- A file system on which no document opens and every image is readable. -/
def unreadableWorld : World :=
  { readPdf := fun _ => none, imageReadable := fun _ => true }

/-- C1 witness: `overlay_unreadable_pdf_raises` at a concrete unreadable
path. -/
theorem overlay_unreadable_pdf_raises_witness :
    overlay_signature_on_pdf_at_candidates unreadableWorld "document.pdf" "signature.png"
      [] true = Except.error OverlayErr.pdfReadError :=
  overlay_unreadable_pdf_raises unreadableWorld "document.pdf" "signature.png" [] true rfl

/-- C1 counterexample: with a concrete unreadable document path the overlay
call produces the raised error — no `ok` payload at all — refuting the claim
that it returns the original, un-overlaid bytes rather than raising. -/
theorem overlay_unreadable_pdf_no_fallback_cex :
    unreadableWorld.readPdf "document.pdf" = none ∧
    overlay_signature_on_pdf_at_candidates unreadableWorld "document.pdf" "signature.png"
      [] true = Except.error OverlayErr.pdfReadError ∧
    (overlay_signature_on_pdf_at_candidates unreadableWorld "document.pdf" "signature.png"
      [] true).isOk = false :=
  ⟨rfl, rfl, rfl⟩

/-- C7: on a readable document, a successful overlay returns exactly as many
pages, in the original order, and every page with no candidate passes
through unmodified. -/
theorem overlay_preserves_pages (w : World) (pdf_path sig : String)
    (cands : List Candidate) (pf : Bool) (doc out : List Page)
    (hdoc : w.readPdf pdf_path = some doc)
    (hok : overlay_signature_on_pdf_at_candidates w pdf_path sig cands pf = Except.ok out) :
    out.length = doc.length ∧
    ∀ i page, doc[i]? = some page → cands.filter (fun c => c.page == i) = [] →
      out[i]? = some page := by
  simp only [overlay_signature_on_pdf_at_candidates, hdoc] at hok
  split at hok
  · exact absurd hok (by simp)
  · have hout : out = stampPages sig cands pf 0 doc := by
      injection hok with h
      exact h.symm
    subst hout
    refine ⟨stampPages_length sig cands pf 0 doc, ?_⟩
    intro i page hpage hfil
    rw [stampPages_getElem sig cands pf 0 doc i, hpage, Option.map_some']
    rw [Nat.zero_add, stampPage_of_no_candidates sig cands pf i page hfil]

/-- Two concrete pages used by the overlay witnesses. -/
def pageA : Page := { width := 612, height := 792, content := [ContentOp.base 0] }

/-- See `pageA`. -/
def pageB : Page := { width := 612, height := 792, content := [ContentOp.base 1] }

/-- A concrete two-page document. -/
def docTwo : List Page := [pageA, pageB]

/-- A file system holding `docTwo` at every path, with readable images. -/
def okWorld : World :=
  { readPdf := fun _ => some docTwo, imageReadable := fun _ => true }

/-- A concrete candidate on page 0 of `docTwo`. -/
def candP0 : Candidate :=
  { page := 0, x := 50, y := 700, width := 120, height := 45, score := 9/10,
    reason := "ocr: sign here" }

/-- The overlay output on `docTwo` with the single candidate `candP0`. -/
def stampedTwo : List Page := stampPages "signature.png" [candP0] true 0 docTwo

/-- C7 witness: `overlay_preserves_pages` at the concrete two-page document
`docTwo` with a single candidate on page 0; page 1 passes through. -/
theorem overlay_preserves_pages_witness :
    stampedTwo.length = docTwo.length ∧
    ∀ i page, docTwo[i]? = some page → ([candP0].filter fun c => c.page == i) = [] →
      stampedTwo[i]? = some page :=
  overlay_preserves_pages okWorld "document.pdf" "signature.png" [candP0] true
    docTwo stampedTwo rfl rfl

/-- C10: with `pick_first = true`, a successful overlay stamps each page
having at least one candidate with exactly one drawImage, at the rectangle
of the *first* candidate in input-list order for that page; and candidate
scores are never consulted — rescoring the candidates arbitrarily leaves the
output unchanged. -/
theorem overlay_pick_first_draws_first (w : World) (pdf_path sig : String)
    (cands : List Candidate) (doc out : List Page)
    (hdoc : w.readPdf pdf_path = some doc)
    (hok : overlay_signature_on_pdf_at_candidates w pdf_path sig cands true = Except.ok out) :
    (∀ i page c rest, doc[i]? = some page →
      (cands.filter fun x => x.page == i) = c :: rest →
      out[i]? = some { page with content := page.content ++
        [ContentOp.image sig c.x c.y c.width c.height] }) ∧
    (∀ f : Candidate → ℚ,
      overlay_signature_on_pdf_at_candidates w pdf_path sig
        (cands.map fun c => { c with score := f c }) true = Except.ok out) := by
  constructor
  · simp only [overlay_signature_on_pdf_at_candidates, hdoc] at hok
    split at hok
    · exact absurd hok (by simp)
    · have hout : out = stampPages sig cands true 0 doc := by
        injection hok with h
        exact h.symm
      subst hout
      intro i page c rest hpage hfil
      rw [stampPages_getElem sig cands true 0 doc i, hpage, Option.map_some']
      rw [Nat.zero_add, stampPage_pick_first sig cands i page c rest hfil]
  · intro f
    simp only [overlay_signature_on_pdf_at_candidates, hdoc] at hok ⊢
    rw [any_page_map_setScore, stampPages_map_setScore]
    exact hok

/-- C10 witness: `overlay_pick_first_draws_first` at the concrete document
`docTwo` with the single candidate `candP0`. -/
theorem overlay_pick_first_draws_first_witness :
    (∀ i page c rest, docTwo[i]? = some page →
      ([candP0].filter fun x => x.page == i) = c :: rest →
      stampedTwo[i]? = some { page with content := page.content ++
        [ContentOp.image "signature.png" c.x c.y c.width c.height] }) ∧
    (∀ f : Candidate → ℚ,
      overlay_signature_on_pdf_at_candidates okWorld "document.pdf" "signature.png"
        ([candP0].map fun c => { c with score := f c }) true = Except.ok stampedTwo) :=
  overlay_pick_first_draws_first okWorld "document.pdf" "signature.png" [candP0]
    docTwo stampedTwo rfl rfl

/-! ## Properties of the Vision Candidate Finder -/

/-- The similarity oracle used by the concrete instances: ratio 0
everywhere, so substring containment alone decides the keyword match. -/
def simZero : String → String → ℚ := fun _ _ => 0

/-- A page whose Canny edge map yields one near-horizontal Hough segment
(vertical deviation 2 px, length 150 px ≥ the detector's
`minLineLength=100`), and no recognised text. -/
def linePage : PageData :=
  { pdf_w := 612, pdf_h := 792, img_w := 100, img_h := 100,
    ocr := Except.ok [], hough := [{ x1 := 0, y1 := 50, x2 := 150, y2 := 52 }] }

/-- C3 (code bug): the visual-heuristic pass can never emit a candidate,
because `cv2.H_HoughLinesP` does not exist (`AttributeError` on every
execution, caught by the pass's handler); concretely, a one-page document
whose edge map contains a qualifying near-horizontal segment produces no
candidate at all — in particular none with reason `"line_detect"`, height
40 and score 0.45 as the claim asserts. -/
theorem line_detect_pass_emits_nothing :
    (∀ (page_index : Nat) (p : PageData), linePassCandidates page_index p = []) ∧
    (∃ ln ∈ linePage.hough, |ln.y2 - ln.y1| < 10) ∧
    find_signature_candidates_by_ocr simZero (some [linePage]) = Except.ok [] := by
  refine ⟨fun _ _ => rfl, ⟨_, List.mem_singleton_self _, ?_⟩, rfl⟩
  norm_num [linePage]

/-- A page whose pytesseract call throws (`.error ()`). -/
def ocrFailPage : PageData :=
  { pdf_w := 612, pdf_h := 792, img_w := 100, img_h := 100,
    ocr := Except.error (), hough := [] }

/-- A recognised keyword word with confidence 90. -/
def kwEntry : OcrEntry :=
  { text := "signature", left := 10, top := 20, width := 30, height := 5, conf := 90 }

/-- A page with a clean recognition result containing `kwEntry`. -/
def keywordPage : PageData :=
  { pdf_w := 100, pdf_h := 100, img_w := 100, img_h := 100,
    ocr := Except.ok [kwEntry], hough := [] }

/-- C4 (code bug): when the recognition step throws on a page,
`safe_ocr_image`'s handler itself raises `UnboundLocalError` (`keys` is
assigned inside the `try`, after the failing call), and the page loop of
`find_signature_candidates_by_ocr` has no handler around the OCR pass —
so the whole call raises instead of containing the failure to that page:
on a two-page document whose first page's recognition throws, the call
errors and the second page (which holds a keyword) is never processed. -/
theorem ocr_failure_not_contained :
    safe_ocr_image (Except.error ()) = Except.error PyErr.unboundLocalError ∧
    find_signature_candidates_by_ocr simZero (some [ocrFailPage, keywordPage]) =
      Except.error PyErr.unboundLocalError :=
  ⟨rfl, rfl⟩

lemma exbind_ok {e : Type} {a b : Type} (x : a) (f : a → Except e b) :
    (Except.ok x >>= f : Except e b) = f x := rfl

lemma exbind_error {e : Type} {a b : Type} (u : e) (f : a → Except e b) :
    (Except.error u >>= f : Except e b) = Except.error u := rfl

lemma pagesLoop_mem (sim : String → String → ℚ) :
    ∀ (n : Nat) (pages : List PageData) (all : List Candidate),
      pagesLoop sim n pages = Except.ok all →
      ∀ c ∈ all, ∃ k p es e, pages[k]? = some p ∧ p.ocr = Except.ok es ∧ e ∈ es ∧
        c = ocrEntryCandidate (n + k) p e := by
  intro n pages
  induction pages generalizing n with
  | nil =>
    intro all hok c hc
    simp only [pagesLoop] at hok
    injection hok with h
    subst h
    exact absurd hc (List.not_mem_nil c)
  | cons p rest ih =>
    intro all hok c hc
    cases ho : p.ocr with
    | error u => simp [pagesLoop, pageCandidates, safe_ocr_image, ho, exbind_ok, exbind_error] at hok
    | ok es =>
      cases hr : pagesLoop sim (n + 1) rest with
      | error e => simp [pagesLoop, pageCandidates, safe_ocr_image, ho, hr, exbind_ok, exbind_error] at hok
      | ok more =>
        have hall : all =
            ocrPassCandidates sim n p es ++ (linePassCandidates n p ++ more) := by
          simp [pagesLoop, pageCandidates, safe_ocr_image, ho, hr, exbind_ok, exbind_error] at hok
          exact hok.symm
        subst hall
        rcases List.mem_append.mp hc with hco | hc2
        · obtain ⟨e, he, hce⟩ := List.mem_map.mp hco
          refine ⟨0, p, es, e, by simp, ho, List.mem_of_mem_filter he, ?_⟩
          rw [Nat.add_zero]
          exact hce.symm
        rcases List.mem_append.mp hc2 with hcl | hc2
        · rw [show linePassCandidates n p = [] from rfl] at hcl
          exact absurd hcl (List.not_mem_nil c)
        obtain ⟨k, p2, es2, e2, hk, hoc2, he2, hc2e⟩ := ih (n + 1) more hr c hc2
        refine ⟨k + 1, p2, es2, e2, by simpa using hk, hoc2, he2, ?_⟩
        have harith : n + (k + 1) = (n + 1) + k := by omega
        rw [harith]
        exact hc2e

lemma entryConf_le_100 {e : OcrEntry} (h : e.conf ≤ 100) : (entryConf e : ℚ) ≤ 100 := by
  unfold entryConf
  split
  · norm_num
  · unfold pyInt
    split
    · exact (Int.floor_le e.conf).trans h
    · rename_i hneg
      have h2 : ⌈e.conf⌉ ≤ 0 := Int.ceil_le.mpr (by push_cast; linarith [not_le.mp hneg])
      have h3 : ((⌈e.conf⌉ : ℤ) : ℚ) ≤ 0 := by exact_mod_cast h2
      linarith

lemma ocr_score_bounds {e : OcrEntry} (h : e.conf ≤ 100) :
    0 ≤ max ((1 : ℚ)/2) ((entryConf e : ℚ) / 100) ∧
      max ((1 : ℚ)/2) ((entryConf e : ℚ) / 100) ≤ 1 := by
  constructor
  · exact le_trans (by norm_num) (le_max_left _ _)
  · apply max_le (by norm_num)
    rw [div_le_one (by norm_num : (0 : ℚ) < 100)]
    exact entryConf_le_100 h

/-- C8: every candidate a successful `find_signature_candidates_by_ocr`
returns satisfies the data-model invariant — positive width and height,
score in `[0,1]` (using the recognition capability's contract that reported
confidences are at most 100), and a page index referencing an existing page
of the document. (The line-detection pass contributes nothing, see C3; the
recognition pass always emits width 120, height 45 and
`score = max(0.5, conf/100)`.) -/
theorem find_candidates_invariant (sim : String → String → ℚ)
    (doc : List PageData) (cands : List Candidate)
    (hconf : ∀ p ∈ doc, ∀ es, p.ocr = Except.ok es → ∀ e ∈ es, e.conf ≤ 100)
    (hok : find_signature_candidates_by_ocr sim (some doc) = Except.ok cands) :
    ∀ c ∈ cands, 0 < c.width ∧ 0 < c.height ∧ 0 ≤ c.score ∧ c.score ≤ 1 ∧
      c.page < doc.length := by
  cases hall : pagesLoop sim 0 doc with
  | error e => simp [find_signature_candidates_by_ocr, hall, exbind_ok, exbind_error] at hok
  | ok all =>
    have hcands : cands = pySortedByScoreDesc (remove_duplicate_candidates all 30) := by
      simp [find_signature_candidates_by_ocr, hall, exbind_ok, exbind_error] at hok
      exact hok.symm
    intro c hc
    have hc2 : c ∈ remove_duplicate_candidates all 30 := by
      rw [hcands] at hc
      exact (List.perm_insertionSort scoreGE _).subset hc
    have hc3 : c ∈ all := by
      have hs := dedupLoop_sublist 30 (pySortedByScoreDesc all) []
      rw [List.nil_append] at hs
      exact (List.perm_insertionSort scoreGE all).subset (hs.subset hc2)
    obtain ⟨k, p, es, e, hk, hoc, he, hce⟩ := pagesLoop_mem sim 0 doc all hall c hc3
    obtain ⟨hklen, -⟩ := List.getElem?_eq_some.mp hk
    have hp : p ∈ doc := by
      have := List.getElem?_eq_some.mp hk
      obtain ⟨h1, h2⟩ := this
      exact h2 ▸ List.getElem_mem h1
    have hbound := ocr_score_bounds (hconf p hp es hoc e he)
    subst hce
    refine ⟨?_, ?_, ?_, ?_, ?_⟩
    · show (0 : ℚ) < (120 : ℚ)
      norm_num
    · show (0 : ℚ) < (45 : ℚ)
      norm_num
    · exact hbound.1
    · exact hbound.2
    · show 0 + k < doc.length
      omega

/-- The single candidate `find_signature_candidates_by_ocr` emits on
`keywordPage`. -/
def kwCand : Candidate := ocrEntryCandidate 0 keywordPage kwEntry

/-- C8 witness: `find_candidates_invariant` on the concrete one-page
document `[keywordPage]`, whose recognition result is `kwEntry`. -/
theorem find_candidates_invariant_witness :
    0 < kwCand.width ∧ 0 < kwCand.height ∧ 0 ≤ kwCand.score ∧ kwCand.score ≤ 1 ∧
      kwCand.page < [keywordPage].length :=
  find_candidates_invariant simZero [keywordPage] [kwCand]
    (by
      intro p hp es hes e he
      rw [List.mem_singleton] at hp
      subst hp
      injection hes with h
      subst h
      rw [List.mem_singleton] at he
      subst he
      norm_num [kwEntry])
    rfl kwCand (List.mem_singleton_self kwCand)

/-! ## Properties of the email extraction -/

/-- A page whose text holds two distinct email addresses, `b@x.com` first. -/
def emailPage : PdfPage :=
  { width := 612, height := 792, fullText := "b@x.com a@x.com", words := [] }

/-- C5 (code bug): the collection loop of
`extract_emails_and_sigboxes_from_pdf` deduplicates emails preserving
first-seen order, but the return statement wraps them in `list(set(emails))`,
whose order is unspecified (CPython string hashing is randomised per
process): under the legitimate set order that reverses — a permutation of
the collected distinct emails — the function returns the emails in the
wrong order, refuting preservation of first-seen order. -/
theorem email_order_not_preserved :
    (extractLoop simZero 0 [] [] [emailPage]).1 = ["b@x.com", "a@x.com"] ∧
    List.Perm (List.reverse ["b@x.com", "a@x.com"]) ["b@x.com", "a@x.com"] ∧
    (extract_emails_and_sigboxes_from_pdf simZero List.reverse (some [emailPage])).1 =
      ["a@x.com", "b@x.com"] ∧
    (["a@x.com", "b@x.com"] : List String) ≠ ["b@x.com", "a@x.com"] := by
  refine ⟨?_, ?_, ?_, ?_⟩ <;> decide

end SignerUtils
